import Mathlib

/-!
Shallow embedding of the chromiumoxide-based network event stream module
(src/lib.rs) and proofs of its specified properties.

The module captures CDP network events: a metadata listener populates a
shared table keyed by request id, a completion listener removes records,
fetches and decodes bodies and emits finished events over an unbounded
FIFO channel; a wait helper performs a timeout-bounded single receive.

Async machinery (tokio tasks, mpsc, timeouts) is embedded as explicit
state passing: the shared table and the delivery channel are components
of a run state, the two listeners become step functions over that state,
and the interleaved event feeds become a single trace of actions. The
body-fetch call is an oracle carried by each completion action.
-/

namespace NetStream

/-- Embedding of Rust `str::contains` for a pattern string: `starts s p`
is true when `p` is a leading segment of `s`. -/
def starts : List Char → List Char → Bool
  | _, [] => true
  | [], _ :: _ => false
  | a :: as, b :: bs => a == b && starts as bs

/-- The check `containsSeq s p` is true when `p` occurs contiguously inside `s`
(Rust `str::contains` on the underlying character sequences). -/
def containsSeq : List Char → List Char → Bool
  | [], p => p.isEmpty
  | s@(_ :: rest), p => starts s p || containsSeq rest p

/-- Wrapper `strContains s pat` embeds Rust `s.contains(pat)`. -/
def strContains (s pat : String) : Bool :=
  containsSeq s.data pat.data

/-- Embedding of `EventStreamConfig` (src/lib.rs lines 29-33). -/
structure EventStreamConfig where
  url_substring_filter : Option String
  content_type_substring_filter : Option String
deriving DecidableEq

/-- Embedding of `should_capture` (src/lib.rs lines 54-68): the url check
passes when no url filter is set or the url contains it; the content-type
check passes when no content-type filter is set, or the content-type is
present and contains it. -/
def should_capture (config : EventStreamConfig) (url : String)
    (content_type : Option String) : Bool :=
  let url_ok :=
    (config.url_substring_filter.map (fun filter => strContains url filter)).getD true
  let ct_ok :=
    (config.content_type_substring_filter.map (fun filter =>
      (content_type.map (fun ct => strContains ct filter)).getD false)).getD true
  url_ok && ct_ok

/-- Embedding of the public `Event` struct (src/lib.rs lines 35-43). -/
structure Event where
  url : String
  content_type : Option String
  status : Option Nat
  body : String
deriving DecidableEq

/-- Embedding of the internal `PendingResponse` record (src/lib.rs lines 46-51). -/
structure PendingResponse where
  url : String
  content_type : Option String
  status : Option Nat
deriving DecidableEq

/-- The correlation table `HashMap<String, PendingResponse>` embedded as an
association list with unique keys maintained by insert/erase. -/
abbrev Table := List (String × PendingResponse)

/-- Lookup in the style of `HashMap::get`. -/
def tableLookup : Table → String → Option PendingResponse
  | [], _ => none
  | (k, v) :: t, q => if k = q then some v else tableLookup t q

/-- Removal of every entry for a key (the deletion part of
`HashMap::remove` / the overwrite part of `HashMap::insert`). -/
def tableErase : Table → String → Table
  | [], _ => []
  | (k, v) :: t, q => if k = q then tableErase t q else (k, v) :: tableErase t q

/-- Insertion as in `HashMap::insert`: overwrites any previous record for the key. -/
def tableInsert (t : Table) (k : String) (v : PendingResponse) : Table :=
  (k, v) :: tableErase t k

/-- A response's header map (`headers.inner()` as a JSON object): keys paired
with `as_str()` views of their values (`none` for non-string JSON values). -/
abbrev Headers := List (String × Option String)

/-- Embedding of `serde_json::Value::get` on the header object: exact, case-sensitive
key lookup. -/
def headerGet : Headers → String → Option (Option String)
  | [], _ => none
  | (k, v) :: hs, q => if k = q then some v else headerGet hs q

/-- The content-type extraction of the metadata listener (src/lib.rs lines
108-113): exact `"content-type"` lookup, falling back to exact
`"Content-Type"`, then `as_str`. -/
def extractContentType (hs : Headers) : Option String :=
  match headerGet hs "content-type" with
  | some v => v
  | none =>
    match headerGet hs "Content-Type" with
    | some v => v
    | none => none

/-- The fields of an `EventResponseReceived` CDP event the listener reads:
request id, url, numeric status (`i64`) and headers. -/
structure ResponseMeta where
  request_id : String
  url : String
  status : Int
  headers : Headers

/-- Embedding of the Rust cast `status as u16`: reduction modulo 2^16. -/
def u16cast (s : Int) : Nat := (s % 65536).toNat

/-- One iteration of the metadata listener loop (src/lib.rs lines 101-128):
extract url, status and content-type, and insert a pending record when
`should_capture` passes. -/
def metadataStep (config : EventStreamConfig) (t : Table) (ev : ResponseMeta) : Table :=
  let url := ev.url
  let status := some (u16cast ev.status)
  let content_type := extractContentType ev.headers
  if should_capture config url content_type then
    tableInsert t ev.request_id ⟨url, content_type, status⟩
  else
    t

/-- Value of one character in the standard base64 alphabet
(`base64::engine::general_purpose::STANDARD`). -/
def b64val (c : Char) : Option Nat :=
  if 'A' ≤ c ∧ c ≤ 'Z' then some (c.toNat - 65)
  else if 'a' ≤ c ∧ c ≤ 'z' then some (c.toNat - 71)
  else if '0' ≤ c ∧ c ≤ '9' then some (c.toNat + 4)
  else if c = '+' then some 62
  else if c = '/' then some 63
  else none

/-- The final 4-character block of a padded base64 payload: 0, 1 or 2
trailing `=` characters, with canonical (zero) unused trailing bits, as
required by the STANDARD engine's decode. -/
def b64final (a b c d : Char) : Option (List Nat) :=
  match b64val a, b64val b, b64val c, b64val d with
  | some va, some vb, some vc, some vd =>
    some [va * 4 + vb / 16, (vb % 16) * 16 + vc / 4, (vc % 4) * 64 + vd]
  | some va, some vb, some vc, none =>
    if d = '=' ∧ vc % 4 = 0 then some [va * 4 + vb / 16, (vb % 16) * 16 + vc / 4]
    else none
  | some va, some vb, none, none =>
    if c = '=' ∧ d = '=' ∧ vb % 16 = 0 then some [va * 4 + vb / 16]
    else none
  | _, _, _, _ => none

/-- Base64 decoding over the character sequence: the input length must be
a multiple of 4, `=` may appear only in the final block, and padding must
be canonical — the error behaviour of `STANDARD.decode`. -/
def b64decodeAux : List Char → Option (List Nat)
  | [] => some []
  | [a, b, c, d] => b64final a b c d
  | a :: b :: c :: d :: rest => do
    let va ← b64val a
    let vb ← b64val b
    let vc ← b64val c
    let vd ← b64val d
    let tail ← b64decodeAux rest
    some ((va * 4 + vb / 16) :: ((vb % 16) * 16 + vc / 4) :: ((vc % 4) * 64 + vd) :: tail)
  | _ => none

/-- Embedding of `base64::engine::general_purpose::STANDARD.decode` on a
string body: `none` models a `DecodeError`. -/
def b64decode (s : String) : Option (List Nat) :=
  b64decodeAux s.data

/-- The U+FFFD replacement character used by lossy UTF-8 decoding. -/
def replChar : Char := Char.ofNat 0xFFFD

/-- Is the byte a UTF-8 continuation byte (`10xxxxxx`)? -/
def isCont (b : Nat) : Bool := 0x80 ≤ b && b < 0xC0

/-- One step of lossy UTF-8 decoding: given the first byte and the bytes
after it, the resulting character (the decoded scalar value, or U+FFFD for
an invalid sequence) and how many of the following bytes were consumed in
addition to the first (Rust's `String::from_utf8_lossy` replaces each
maximal valid prefix of an invalid sequence by a single U+FFFD). -/
def utf8Step (b : Nat) (rest : List Nat) : Char × Nat :=
  if b < 0x80 then (Char.ofNat b, 0)
  else if b < 0xC2 then (replChar, 0)
  else if b ≤ 0xDF then
    match rest with
    | b2 :: _ =>
      if isCont b2 then (Char.ofNat ((b - 0xC0) * 64 + (b2 - 0x80)), 1)
      else (replChar, 0)
    | [] => (replChar, 0)
  else if b ≤ 0xEF then
    let lo2 := if b = 0xE0 then 0xA0 else 0x80
    let hi2 := if b = 0xED then 0x9F else 0xBF
    match rest with
    | b2 :: rest2 =>
      if lo2 ≤ b2 && b2 ≤ hi2 then
        match rest2 with
        | b3 :: _ =>
          if isCont b3 then
            (Char.ofNat ((b - 0xE0) * 4096 + (b2 - 0x80) * 64 + (b3 - 0x80)), 2)
          else (replChar, 1)
        | [] => (replChar, 1)
      else (replChar, 0)
    | [] => (replChar, 0)
  else if b ≤ 0xF4 then
    let lo2 := if b = 0xF0 then 0x90 else 0x80
    let hi2 := if b = 0xF4 then 0x8F else 0xBF
    match rest with
    | b2 :: rest2 =>
      if lo2 ≤ b2 && b2 ≤ hi2 then
        match rest2 with
        | b3 :: rest3 =>
          if isCont b3 then
            match rest3 with
            | b4 :: _ =>
              if isCont b4 then
                (Char.ofNat
                  ((b - 0xF0) * 262144 + (b2 - 0x80) * 4096 + (b3 - 0x80) * 64 + (b4 - 0x80)), 3)
              else (replChar, 2)
            | [] => (replChar, 2)
          else (replChar, 1)
        | [] => (replChar, 1)
      else (replChar, 0)
    | [] => (replChar, 0)
  else (replChar, 0)

/-- Lossy UTF-8 decoding loop, fuelled by the byte count (every step
consumes at least one byte, so `bs.length` fuel always suffices). -/
def utf8LossyAux : Nat → List Nat → List Char
  | 0, _ => []
  | _, [] => []
  | fuel + 1, b :: rest =>
    let s := utf8Step b rest
    s.1 :: utf8LossyAux fuel (rest.drop s.2)

/-- Embedding of `String::from_utf8_lossy(bytes).to_string()`. Total: every
byte sequence yields a string, invalid sequences becoming U+FFFD. -/
def utf8Lossy (bs : List Nat) : String :=
  ⟨utf8LossyAux bs.length bs⟩

/-- The result of a successful `GetResponseBody` CDP call: the body text
and the `base64_encoded` flag. -/
structure BodyResult where
  body : String
  base64Encoded : Bool
deriving DecidableEq

/-- The body computation of the completion listener (src/lib.rs lines
156-176) for a successful fetch: base64-decode then lossy-UTF-8 when the
binary flag is set (`none` models the `continue` on decode failure), the
returned text verbatim otherwise. -/
def decodeBody (r : BodyResult) : Option String :=
  if r.base64Encoded then
    match b64decode r.body with
    | some bytes => some (utf8Lossy bytes)
    | none => none
  else
    some r.body

/-- Result of one iteration of the completion listener: the table after the
removal, the event pushed to the channel (if any), and whether a
`GetResponseBody` call was issued. -/
structure CompletionOutcome where
  table : Table
  emitted : Option Event
  fetchIssued : Bool

/-- One iteration of the completion listener loop (src/lib.rs lines
139-188): remove the pending record; if absent skip, otherwise fetch the
body (outcome given by the `fetch` oracle), decode it, and emit the event;
fetch or decode failure drops the event. -/
def completionStep (t : Table) (request_id : String)
    (fetch : Except Unit BodyResult) : CompletionOutcome :=
  match tableLookup t request_id with
  | none => ⟨tableErase t request_id, none, false⟩
  | some pending =>
    match fetch with
    | Except.error _ => ⟨tableErase t request_id, none, true⟩
    | Except.ok r =>
      match decodeBody r with
      | none => ⟨tableErase t request_id, none, true⟩
      | some body =>
        ⟨tableErase t request_id,
         some ⟨pending.url, pending.content_type, pending.status, body⟩, true⟩

/-- One element of the interleaved feed the two listeners consume: a
response-metadata event, or a loading-finished event together with the
oracle outcome of the body-fetch call that would be issued for it. -/
inductive NetAction where
  | metadata (ev : ResponseMeta)
  | finished (request_id : String) (fetch : Except Unit BodyResult)

/-- The shared state of the stream: the correlation table and the delivery
channel's queued events (FIFO, new events appended at the tail). -/
structure RunState where
  table : Table
  channel : List Event

/-- Dispatch of one action to the listener that consumes it. -/
def stepAction (config : EventStreamConfig) (st : RunState) : NetAction → RunState
  | NetAction.metadata ev => ⟨metadataStep config st.table ev, st.channel⟩
  | NetAction.finished rid fetch =>
    let o := completionStep st.table rid fetch
    ⟨o.table, st.channel ++ o.emitted.toList⟩

/-- A whole run of the stream from the initial empty table and empty
channel over a trace of actions. -/
def run (config : EventStreamConfig) (acts : List NetAction) : RunState :=
  acts.foldl (stepAction config) ⟨[], []⟩

/-- The consumer's view of the delivery channel: the queued events in FIFO
order and whether every sender has been dropped. -/
structure Receiver where
  queue : List Event
  closed : Bool
deriving DecidableEq

/-- Embedding of the `EventResult` enum (src/lib.rs lines 195-199). -/
inductive EventResult where
  | Timeout
  | StreamClosed
  | Ok (e : Event)
deriving DecidableEq

/-- Embedding of `wait_for_event_with_timeout` (src/lib.rs lines 204-213)
under the assumption that no new event arrives during the wait window: a
queued event is returned immediately whatever the timeout; an empty queue
yields `StreamClosed` when every sender is gone and `Timeout` otherwise.
Returns the result together with the receiver state after the call. -/
def wait_for_event_with_timeout (rx : Receiver) (timeoutMs : Nat) :
    EventResult × Receiver :=
  match rx.queue with
  | e :: restQueue => (EventResult.Ok e, ⟨restQueue, rx.closed⟩)
  | [] =>
    if rx.closed then (EventResult.StreamClosed, rx)
    else (EventResult.Timeout, rx)

/-- Opaque CDP error payload. -/
structure CdpErr where
  msg : String
deriving DecidableEq

/-- Embedding of the crate's `Error` enum (src/lib.rs lines 19-27). -/
inductive Error where
  | EnableNetwork (e : CdpErr)
  | GetResponseBody (e : CdpErr)
  | Base64Decode (msg : String)
deriving DecidableEq

/-- What a successful `start_event_stream` hands back: the fresh receiver
and the fact that both listener tasks were spawned. -/
structure StreamHandle where
  receiver : Receiver
  listenersSpawned : Bool
deriving DecidableEq

/-- Embedding of `start_event_stream`'s setup phase (src/lib.rs lines
72-81, 192): if enabling network tracking fails, the error is returned at
once — before the channel is created or any task is spawned; otherwise the
channel is created, both listeners are spawned and the receiver returned. -/
def start_event_stream (enableResult : Except CdpErr Unit) :
    Except Error StreamHandle :=
  match enableResult with
  | Except.error e => Except.error (Error.EnableNetwork e)
  | Except.ok _ => Except.ok ⟨⟨[], false⟩, true⟩

/-! ## Lemmas about the correlation table -/

theorem tableLookup_insert_self (t : Table) (k : String) (v : PendingResponse) :
    tableLookup (tableInsert t k v) k = some v := by
  simp [tableInsert, tableLookup]

theorem tableLookup_erase_self (t : Table) (k : String) :
    tableLookup (tableErase t k) k = none := by
  induction t with
  | nil => rfl
  | cons hd tl ih =>
    obtain ⟨k0, v0⟩ := hd
    by_cases h : k0 = k
    · simpa [tableErase, h] using ih
    · simpa [tableErase, tableLookup, h] using ih

theorem tableLookup_erase_ne (t : Table) (k q : String) (h : q ≠ k) :
    tableLookup (tableErase t k) q = tableLookup t q := by
  induction t with
  | nil => rfl
  | cons hd tl ih =>
    obtain ⟨k0, v0⟩ := hd
    by_cases h0 : k0 = k
    · subst h0
      have hk : ¬ k0 = q := fun hq => h hq.symm
      simpa [tableErase, tableLookup, hk] using ih
    · by_cases hq : k0 = q
      · simp [tableErase, tableLookup, h0, hq, h]
      · simpa [tableErase, tableLookup, h0, hq] using ih

theorem tableLookup_insert_ne (t : Table) (k q : String) (v : PendingResponse)
    (h : q ≠ k) :
    tableLookup (tableInsert t k v) q = tableLookup t q := by
  have hk : ¬ k = q := fun hq => h hq.symm
  simp [tableInsert, tableLookup, hk, tableLookup_erase_ne t k q h]

theorem tableLookup_erase_some (t : Table) (k q : String) (p : PendingResponse)
    (h : tableLookup (tableErase t k) q = some p) :
    tableLookup t q = some p := by
  by_cases hq : q = k
  · subst hq
    rw [tableLookup_erase_self] at h
    exact absurd h (by simp)
  · rwa [tableLookup_erase_ne t k q hq] at h

/-! ## Lemmas about the listener steps -/

theorem completionStep_table (t : Table) (q : String) (f : Except Unit BodyResult) :
    (completionStep t q f).table = tableErase t q := by
  cases hl : tableLookup t q with
  | none => simp [completionStep, hl]
  | some p =>
    cases f with
    | error e => simp [completionStep, hl]
    | ok r => cases hd : decodeBody r <;> simp [completionStep, hl, hd]

theorem completionStep_emitted_of_some (t : Table) (q : String) (f : Except Unit BodyResult)
    (e : Event) (h : (completionStep t q f).emitted = some e) :
    ∃ p, tableLookup t q = some p ∧ e.status = p.status ∧
      e.url = p.url ∧ e.content_type = p.content_type := by
  cases hl : tableLookup t q with
  | none => simp [completionStep, hl] at h
  | some p =>
    refine ⟨p, rfl, ?_⟩
    cases f with
    | error e0 => simp [completionStep, hl] at h
    | ok r =>
      cases hd : decodeBody r with
      | none => simp [completionStep, hl, hd] at h
      | some body =>
        simp [completionStep, hl, hd] at h
        simp [← h]

theorem metadataStep_lookup (config : EventStreamConfig) (t : Table)
    (ev : ResponseMeta) (rid : String) (p : PendingResponse)
    (h : tableLookup (metadataStep config t ev) rid = some p) :
    tableLookup t rid = some p ∨
      (should_capture config ev.url (extractContentType ev.headers) = true ∧
       p = ⟨ev.url, extractContentType ev.headers, some (u16cast ev.status)⟩) := by
  by_cases hcap : should_capture config ev.url (extractContentType ev.headers) = true
  · rw [metadataStep] at h
    simp only [hcap, if_true] at h
    by_cases hrid : rid = ev.request_id
    · subst hrid
      rw [tableLookup_insert_self] at h
      right
      exact ⟨hcap, (Option.some_injective _ h).symm⟩
    · rw [tableLookup_insert_ne _ _ _ _ hrid] at h
      exact Or.inl h
  · left
    rw [metadataStep] at h
    simpa [hcap] using h

theorem stepAction_channel_grows (config : EventStreamConfig) (st : RunState)
    (a : NetAction) :
    ∃ d, (stepAction config st a).channel = st.channel ++ d := by
  cases a with
  | metadata ev => exact ⟨[], by simp [stepAction]⟩
  | finished rid f => exact ⟨(completionStep st.table rid f).emitted.toList, rfl⟩

theorem foldl_channel_grows (config : EventStreamConfig) (acts : List NetAction) :
    ∀ st : RunState, ∃ d,
      (acts.foldl (stepAction config) st).channel = st.channel ++ d := by
  induction acts with
  | nil => exact fun st => ⟨[], by simp⟩
  | cons a rest ih =>
    intro st
    obtain ⟨d1, hd1⟩ := stepAction_channel_grows config st a
    obtain ⟨d2, hd2⟩ := ih (stepAction config st a)
    exact ⟨d1 ++ d2, by rw [List.foldl_cons, hd2, hd1, List.append_assoc]⟩

theorem stepAction_preserves_capture_inv (config : EventStreamConfig)
    (st : RunState) (a : NetAction)
    (h : ∀ rid p, tableLookup st.table rid = some p →
      should_capture config p.url p.content_type = true) :
    ∀ rid p, tableLookup (stepAction config st a).table rid = some p →
      should_capture config p.url p.content_type = true := by
  intro rid p hp
  cases a with
  | metadata ev =>
    rcases metadataStep_lookup config st.table ev rid p hp with hold | ⟨hcap, hrec⟩
    · exact h rid p hold
    · subst hrec
      exact hcap
  | finished q f =>
    rw [stepAction, completionStep_table] at hp
    exact h rid p (tableLookup_erase_some _ _ _ _ hp)

theorem foldl_preserves_capture_inv (config : EventStreamConfig)
    (acts : List NetAction) :
    ∀ st : RunState,
      (∀ rid p, tableLookup st.table rid = some p →
        should_capture config p.url p.content_type = true) →
      ∀ rid p, tableLookup (acts.foldl (stepAction config) st).table rid = some p →
        should_capture config p.url p.content_type = true := by
  induction acts with
  | nil => exact fun st h => h
  | cons a rest ih =>
    exact fun st h => ih _ (stepAction_preserves_capture_inv config st a h)

theorem u16cast_lt (s : Int) : u16cast s < 65536 := by
  unfold u16cast
  omega

theorem stepAction_preserves_status_inv (config : EventStreamConfig)
    (st : RunState) (a : NetAction)
    (h1 : ∀ rid p, tableLookup st.table rid = some p →
      ∃ n, n < 65536 ∧ p.status = some n)
    (h2 : ∀ e ∈ st.channel, ∃ n, n < 65536 ∧ e.status = some n) :
    (∀ rid p, tableLookup (stepAction config st a).table rid = some p →
      ∃ n, n < 65536 ∧ p.status = some n) ∧
    (∀ e ∈ (stepAction config st a).channel, ∃ n, n < 65536 ∧ e.status = some n) := by
  cases a with
  | metadata ev =>
    refine ⟨?_, h2⟩
    intro rid p hp
    rcases metadataStep_lookup config st.table ev rid p hp with hold | ⟨_, hrec⟩
    · exact h1 rid p hold
    · exact ⟨u16cast ev.status, u16cast_lt ev.status, by rw [hrec]⟩
  | finished q f =>
    constructor
    · intro rid p hp
      rw [stepAction, completionStep_table] at hp
      exact h1 rid p (tableLookup_erase_some _ _ _ _ hp)
    · intro e he
      rw [stepAction] at he
      rcases List.mem_append.mp he with hin | hnew
      · exact h2 e hin
      · rcases Option.mem_toList.mp hnew with hemit
        obtain ⟨p, hp, hst, _, _⟩ :=
          completionStep_emitted_of_some st.table q f e hemit
        obtain ⟨n, hn, hps⟩ := h1 q p hp
        exact ⟨n, hn, by rw [hst, hps]⟩

theorem foldl_preserves_status_inv (config : EventStreamConfig)
    (acts : List NetAction) :
    ∀ st : RunState,
      (∀ rid p, tableLookup st.table rid = some p →
        ∃ n, n < 65536 ∧ p.status = some n) →
      (∀ e ∈ st.channel, ∃ n, n < 65536 ∧ e.status = some n) →
      ∀ e ∈ (acts.foldl (stepAction config) st).channel,
        ∃ n, n < 65536 ∧ e.status = some n := by
  induction acts with
  | nil => exact fun st _ h2 => h2
  | cons a rest ih =>
    intro st h1 h2
    obtain ⟨g1, g2⟩ := stepAction_preserves_status_inv config st a h1 h2
    exact ih _ g1 g2

/-! ## Claim theorems -/

/-- Claim C1: `should_capture` returns true iff both checks pass — the url
check passes when no url filter is configured or the url contains the
filter substring, and the content-type check passes when no content-type
filter is configured or the content-type is present and contains the
filter substring; in particular an absent content-type with a configured
content-type filter yields false. -/
theorem should_capture_truth_table (config : EventStreamConfig) (url : String)
    (ct : Option String) :
    (should_capture config url ct = true ↔
      ((config.url_substring_filter = none ∨
        ∃ f, config.url_substring_filter = some f ∧ strContains url f = true) ∧
       (config.content_type_substring_filter = none ∨
        ∃ f s, config.content_type_substring_filter = some f ∧ ct = some s ∧
          strContains s f = true))) ∧
    (config.content_type_substring_filter ≠ none →
      should_capture config url none = false) := by
  obtain ⟨uf, cf⟩ := config
  constructor
  · cases uf <;> cases cf <;> cases ct <;> simp [should_capture]
  · cases uf <;> cases cf <;> simp [should_capture]

/-- Witness for C1: with no url filter and content-type filter
`"application/json"`, an absent content-type is rejected. -/
theorem should_capture_truth_table_witness :
    should_capture ⟨none, some "application/json"⟩ "https://x" none = false :=
  (should_capture_truth_table ⟨none, some "application/json"⟩ "https://x" none).2
    (by simp)

/-- Claim C3: the wait helper yields exactly one of three outcomes — a
queued event (returned whatever the requested timeout), `StreamClosed`
when every sender is dropped and the queue is drained, or `Timeout` when
the duration elapses with no event; on `Timeout` nothing is consumed, and
each call consumes at most one event, never discarding unread ones. -/
theorem wait_semantics (rx : Receiver) (timeoutMs : Nat) :
    (∀ e restQ, rx.queue = e :: restQ →
      wait_for_event_with_timeout rx timeoutMs =
        (EventResult.Ok e, ⟨restQ, rx.closed⟩)) ∧
    (rx.queue = [] → rx.closed = true →
      wait_for_event_with_timeout rx timeoutMs = (EventResult.StreamClosed, rx)) ∧
    (rx.queue = [] → rx.closed = false →
      wait_for_event_with_timeout rx timeoutMs = (EventResult.Timeout, rx)) ∧
    (∃ k ≤ 1, (wait_for_event_with_timeout rx timeoutMs).2.queue = rx.queue.drop k ∧
      (wait_for_event_with_timeout rx timeoutMs).2.closed = rx.closed ∧
      ((k = 1) ↔ ∃ e, (wait_for_event_with_timeout rx timeoutMs).1 = EventResult.Ok e)) := by
  obtain ⟨q, c⟩ := rx
  match q with
  | [] =>
    refine ⟨by simp, ?_, ?_, ?_⟩
    · intro _ hc
      subst hc
      simp [wait_for_event_with_timeout]
    · intro _ hc
      subst hc
      simp [wait_for_event_with_timeout]
    · refine ⟨0, by norm_num, ?_⟩
      cases c <;> simp [wait_for_event_with_timeout]
  | e :: restQ =>
    refine ⟨?_, by simp, by simp, ?_⟩
    · intro e' restQ' hq
      injection hq with h1 h2
      subst h1
      subst h2
      rfl
    · exact ⟨1, le_refl 1, by simp [wait_for_event_with_timeout], by
        simp [wait_for_event_with_timeout],
        by simp [wait_for_event_with_timeout]⟩

/-- Witness for C3: a receiver with one queued event and live senders
returns that event immediately even with a zero timeout. -/
theorem wait_semantics_witness :
    wait_for_event_with_timeout ⟨[⟨"u", none, some 200, "b"⟩], false⟩ 0 =
      (EventResult.Ok ⟨"u", none, some 200, "b"⟩, ⟨[], false⟩) :=
  (wait_semantics ⟨[⟨"u", none, some 200, "b"⟩], false⟩ 0).1
    ⟨"u", none, some 200, "b"⟩ [] rfl

/-- Claim C8: when enabling network tracking fails, `start_event_stream`
returns the setup error synchronously (wrapped as `EnableNetwork`) and no
stream handle — hence no receiver and no spawned listener — is returned. -/
theorem setup_failure_sync (e : CdpErr) :
    start_event_stream (Except.error e) = Except.error (Error.EnableNetwork e) ∧
    ∀ h : StreamHandle, start_event_stream (Except.error e) ≠ Except.ok h :=
  ⟨rfl, fun _ hc => by cases hc⟩

/-- Witness for C8: a concrete enable failure is surfaced synchronously as
`EnableNetwork` and no handle is returned. -/
theorem setup_failure_sync_witness :
    start_event_stream (Except.error ⟨"boom"⟩) =
      Except.error (Error.EnableNetwork ⟨"boom"⟩) ∧
    start_event_stream (Except.error ⟨"boom"⟩) ≠ Except.ok ⟨⟨[], false⟩, true⟩ :=
  ⟨(setup_failure_sync ⟨"boom"⟩).1, (setup_failure_sync ⟨"boom"⟩).2 ⟨⟨[], false⟩, true⟩⟩

/-- Claim C2: any number of repeated metadata events for a request id
followed by one loading-finished event produce exactly one Event, built
from the most recently received metadata (each insert overwrites the
prior record); the completion removes the record, so a second completion
for the same id finds nothing and emits nothing. -/
theorem at_most_once_delivery (config : EventStreamConfig)
    (prior : List ResponseMeta) (lastEv : ResponseMeta) (i : String)
    (r : BodyResult) (f2 : Except Unit BodyResult) (body : String)
    (hid : ∀ ev ∈ prior, ev.request_id = i) (hlast : lastEv.request_id = i)
    (hcap : should_capture config lastEv.url (extractContentType lastEv.headers) = true)
    (hdec : decodeBody r = some body) :
    (completionStep ((prior ++ [lastEv]).foldl (metadataStep config) []) i
        (Except.ok r)).emitted =
      some ⟨lastEv.url, extractContentType lastEv.headers,
            some (u16cast lastEv.status), body⟩ ∧
    (completionStep (completionStep ((prior ++ [lastEv]).foldl (metadataStep config) []) i
        (Except.ok r)).table i f2).emitted = none := by
  have hfold : (prior ++ [lastEv]).foldl (metadataStep config) ([] : Table) =
      metadataStep config (prior.foldl (metadataStep config) []) lastEv := by
    rw [List.foldl_append, List.foldl_cons, List.foldl_nil]
  have hstep : metadataStep config (prior.foldl (metadataStep config) []) lastEv =
      tableInsert (prior.foldl (metadataStep config) []) i
        ⟨lastEv.url, extractContentType lastEv.headers, some (u16cast lastEv.status)⟩ := by
    rw [metadataStep]
    simp only [hcap, if_true, hlast]
  have hlook : tableLookup
      (metadataStep config (prior.foldl (metadataStep config) []) lastEv) i =
      some ⟨lastEv.url, extractContentType lastEv.headers, some (u16cast lastEv.status)⟩ := by
    rw [hstep, tableLookup_insert_self]
  rw [hfold]
  constructor
  · simp [completionStep, hlook, hdec]
  · rw [completionStep_table]
    have hnone : tableLookup
        (tableErase (metadataStep config (prior.foldl (metadataStep config) []) lastEv) i)
        i = none :=
      tableLookup_erase_self _ i
    simp [completionStep, hnone]

/-- Witness for C2: two metadata events for id `"1"` (the second
overwriting the first), one completion with a successful plain fetch —
exactly one Event, carrying the second event's url and status; a second
completion emits nothing. -/
theorem at_most_once_delivery_witness :
    (completionStep
        ((([⟨"1", "https://x/api/v1/a", 200, [("content-type", some "application/json")]⟩] :
            List ResponseMeta) ++
          ([⟨"1", "https://x/api/v1/b", 201, [("content-type", some "application/json")]⟩] :
            List ResponseMeta)).foldl
          (metadataStep ⟨none, some "application/json"⟩) []) "1"
        (Except.ok ⟨"ok", false⟩)).emitted =
      some ⟨"https://x/api/v1/b", some "application/json", some 201, "ok"⟩ ∧
    (completionStep
        (completionStep
          ((([⟨"1", "https://x/api/v1/a", 200, [("content-type", some "application/json")]⟩] :
              List ResponseMeta) ++
            ([⟨"1", "https://x/api/v1/b", 201, [("content-type", some "application/json")]⟩] :
              List ResponseMeta)).foldl
            (metadataStep ⟨none, some "application/json"⟩) []) "1"
          (Except.ok ⟨"ok", false⟩)).table "1" (Except.error ())).emitted = none := by
  have h := at_most_once_delivery ⟨none, some "application/json"⟩
    ([⟨"1", "https://x/api/v1/a", 200, [("content-type", some "application/json")]⟩] :
      List ResponseMeta)
    ⟨"1", "https://x/api/v1/b", 201, [("content-type", some "application/json")]⟩
    "1" ⟨"ok", false⟩ (Except.error ()) "ok" (by decide) rfl (by decide) rfl
  exact h

/-- Claim C4: with the binary flag set, the fetched body is base64-decoded
and the bytes interpreted as UTF-8 with lossy replacement (no UTF-8
validity condition — invalid bytes never fail); without the flag the
returned text is used verbatim; the decoded body is what the emitted
Event carries; `"SGVsbG8="` decodes to `"Hello"`, and the invalid-UTF-8
byte 0xFF (base64 `"/w=="`) becomes U+FFFD instead of failing. -/
theorem binary_body_decode :
    (∀ r : BodyResult, r.base64Encoded = true → ∀ bytes, b64decode r.body = some bytes →
      decodeBody r = some (utf8Lossy bytes)) ∧
    (∀ r : BodyResult, r.base64Encoded = false → decodeBody r = some r.body) ∧
    (∀ t rid p r body, tableLookup t rid = some p → decodeBody r = some body →
      (completionStep t rid (Except.ok r)).emitted =
        some ⟨p.url, p.content_type, p.status, body⟩) ∧
    decodeBody ⟨"SGVsbG8=", true⟩ = some "Hello" ∧
    decodeBody ⟨"/w==", true⟩ = some (String.mk [replChar]) := by
  refine ⟨?_, ?_, ?_, by decide, by decide⟩
  · intro r hb bytes hd
    simp [decodeBody, hb, hd]
  · intro r hb
    simp [decodeBody, hb]
  · intro t rid p r body hl hd
    simp [completionStep, hl, hd]

/-- Witness for C4: the flagged body `"SGVsbG8="` decodes through base64
to the bytes of `"Hello"` and then through lossy UTF-8. -/
theorem binary_body_decode_witness :
    decodeBody ⟨"SGVsbG8=", true⟩ = some (utf8Lossy [72, 101, 108, 108, 111]) :=
  binary_body_decode.1 ⟨"SGVsbG8=", true⟩ rfl [72, 101, 108, 108, 111] (by decide)

/-- Claim C5: a failed body-fetch, or a failed base64 decode of a
binary-flagged body, drops that event — nothing is emitted, nothing is
pushed to the delivery channel — and the listener keeps processing the
following actions. -/
theorem per_event_failure_drop :
    (∀ t rid, (completionStep t rid (Except.error ())).emitted = none) ∧
    (∀ t rid r, r.base64Encoded = true → b64decode r.body = none →
      (completionStep t rid (Except.ok r)).emitted = none) ∧
    (∀ config st rid,
      (stepAction config st (NetAction.finished rid (Except.error ()))).channel =
        st.channel) ∧
    (∀ config st rid r, r.base64Encoded = true → b64decode r.body = none →
      (stepAction config st (NetAction.finished rid (Except.ok r))).channel =
        st.channel) ∧
    (∀ config st a more, ((a :: more).foldl (stepAction config) st) =
      more.foldl (stepAction config) (stepAction config st a)) := by
  have hfetch : ∀ t rid, (completionStep t rid (Except.error ())).emitted = none := by
    intro t rid
    cases hl : tableLookup t rid <;> simp [completionStep, hl]
  have hdecode : ∀ t rid r, r.base64Encoded = true → b64decode r.body = none →
      (completionStep t rid (Except.ok r)).emitted = none := by
    intro t rid r hb hd
    cases hl : tableLookup t rid <;> simp [completionStep, decodeBody, hl, hb, hd]
  refine ⟨hfetch, hdecode, ?_, ?_, fun _ _ _ _ => rfl⟩
  · intro config st rid
    simp [stepAction, hfetch]
  · intro config st rid r hb hd
    simp [stepAction, hdecode st.table rid r hb hd]

/-- Witness for C5: a tracked id whose fetched body `"!!!"` is flagged
binary but is not valid base64 yields no Event. -/
theorem per_event_failure_drop_witness :
    (completionStep [("1", ⟨"u", none, some 200⟩)] "1"
      (Except.ok ⟨"!!!", true⟩)).emitted = none :=
  per_event_failure_drop.2.1 [("1", ⟨"u", none, some 200⟩)] "1" ⟨"!!!", true⟩
    rfl (by decide)

/-- Counterexample to C6 as stated: the lookup is not case-insensitive —
a header stored under the capitalization `"CONTENT-TYPE"` is not found,
while the same value under the exact key `"content-type"` is. -/
theorem header_lookup_case_counterexample :
    extractContentType [("CONTENT-TYPE", some "text/html")] = none ∧
    extractContentType [("content-type", some "text/html")] = some "text/html" := by
  constructor <;> rfl

/-- Claim C6 (amended): the content-type is extracted by exact key lookup
preferring `"content-type"` and falling back to `"Content-Type"`; headers
stored under any other capitalization of the name are not consulted. -/
theorem header_lookup_exact (hs : Headers) :
    (∀ v, headerGet hs "content-type" = some v → extractContentType hs = v) ∧
    (headerGet hs "content-type" = none →
      ∀ v, headerGet hs "Content-Type" = some v → extractContentType hs = v) ∧
    (headerGet hs "content-type" = none → headerGet hs "Content-Type" = none →
      extractContentType hs = none) := by
  refine ⟨?_, ?_, ?_⟩
  · intro v h
    simp [extractContentType, h]
  · intro h1 v h2
    simp [extractContentType, h1, h2]
  · intro h1 h2
    simp [extractContentType, h1, h2]

/-- Witness for C6 (amended): the fallback key `"Content-Type"` is found
when the exact lowercase key is absent. -/
theorem header_lookup_exact_witness :
    extractContentType [("Content-Type", some "text/html")] = some "text/html" :=
  (header_lookup_exact [("Content-Type", some "text/html")]).2.1 rfl
    (some "text/html") rfl

/-- Claim C7: a metadata event that fails the filter leaves the table
unchanged (no record inserted); a completion event for an id with no
record issues no body-fetch call and emits nothing; and every record ever
present in the table during a run was created by a metadata event that
passed the filter (the record's url and content-type satisfy
`should_capture`). -/
theorem filtered_ids_never_fetch (config : EventStreamConfig) :
    (∀ t ev, should_capture config ev.url (extractContentType ev.headers) = false →
      metadataStep config t ev = t) ∧
    (∀ t rid f, tableLookup t rid = none →
      (completionStep t rid f).fetchIssued = false ∧
      (completionStep t rid f).emitted = none) ∧
    (∀ acts rid p, tableLookup (run config acts).table rid = some p →
      should_capture config p.url p.content_type = true) := by
  refine ⟨?_, ?_, ?_⟩
  · intro t ev h
    simp [metadataStep, h]
  · intro t rid f h
    simp [completionStep, h]
  · intro acts rid p hp
    refine foldl_preserves_capture_inv config acts ⟨[], []⟩ ?_ rid p hp
    intro rid0 p0 h0
    cases h0

/-- Witness for C7: with content-type filter `"application/json"`, a
metadata event for id `"2"` carrying `text/html` inserts nothing, and the
following completion for id `"2"` issues no fetch and emits nothing. -/
theorem filtered_ids_never_fetch_witness :
    metadataStep ⟨none, some "application/json"⟩ []
      ⟨"2", "https://x", 200, [("content-type", some "text/html")]⟩ = [] ∧
    (completionStep [] "2" (Except.ok ⟨"b", false⟩)).fetchIssued = false ∧
    (completionStep [] "2" (Except.ok ⟨"b", false⟩)).emitted = none :=
  ⟨(filtered_ids_never_fetch ⟨none, some "application/json"⟩).1 []
      ⟨"2", "https://x", 200, [("content-type", some "text/html")]⟩ (by decide),
   ((filtered_ids_never_fetch ⟨none, some "application/json"⟩).2.1 [] "2"
      (Except.ok ⟨"b", false⟩) rfl).1,
   ((filtered_ids_never_fetch ⟨none, some "application/json"⟩).2.1 [] "2"
      (Except.ok ⟨"b", false⟩) rfl).2⟩

/-- Claim C9: events are delivered in FIFO order matching the order in
which the completion listener processes loading-finished events,
independent of metadata arrival order: metadata actions never touch the
channel, each completion action appends its emission (if any) at the
tail, the channel only ever grows by appending at the tail, and the
consumer takes from the head. -/
theorem fifo_completion_order (config : EventStreamConfig) :
    (∀ st ev, (stepAction config st (NetAction.metadata ev)).channel = st.channel) ∧
    (∀ st rid f, (stepAction config st (NetAction.finished rid f)).channel =
      st.channel ++ (completionStep st.table rid f).emitted.toList) ∧
    (∀ (st : RunState) (acts : List NetAction), ∃ tailEvents,
      (acts.foldl (stepAction config) st).channel = st.channel ++ tailEvents) ∧
    (∀ e restQ c timeoutMs,
      (wait_for_event_with_timeout ⟨e :: restQ, c⟩ timeoutMs).1 = EventResult.Ok e) := by
  refine ⟨fun st ev => by simp [stepAction], fun st rid f => rfl, ?_,
    fun e restQ c timeoutMs => rfl⟩
  intro st acts
  exact foldl_channel_grows config acts st

/-- Witness for C9: processing a metadata action leaves a concrete channel
untouched, and the consumer receives the head of a queued pair first. -/
theorem fifo_completion_order_witness :
    (stepAction ⟨none, none⟩ ⟨[], [⟨"a", none, some 200, "x"⟩]⟩
      (NetAction.metadata ⟨"1", "https://y", 201, []⟩)).channel =
      [⟨"a", none, some 200, "x"⟩] ∧
    (wait_for_event_with_timeout
      ⟨[⟨"a", none, some 200, "x"⟩, ⟨"b", none, some 201, "y"⟩], false⟩ 50).1 =
      EventResult.Ok ⟨"a", none, some 200, "x"⟩ :=
  ⟨(fifo_completion_order ⟨none, none⟩).1 ⟨[], [⟨"a", none, some 200, "x"⟩]⟩
      ⟨"1", "https://y", 201, []⟩,
   (fifo_completion_order ⟨none, none⟩).2.2.2 ⟨"a", none, some 200, "x"⟩
      [⟨"b", none, some 201, "y"⟩] false 50⟩

/-- Claim C10: every emitted event has a present status (never `none`),
whose value is the source response's integer status reduced modulo 2^16
(the `as u16` cast, so out-of-range statuses wrap): the cast is always
below 65536, a record inserted by the metadata listener carries
`some (u16cast status)`, and every event a run puts on the channel has
`status = some n` with `n < 65536`. -/
theorem status_always_some_u16 (config : EventStreamConfig) :
    (∀ s : Int, u16cast s < 65536) ∧
    (∀ t ev rid p, tableLookup (metadataStep config t ev) rid = some p →
      tableLookup t rid = some p ∨ p.status = some (u16cast ev.status)) ∧
    (∀ acts e, e ∈ (run config acts).channel → ∃ n, n < 65536 ∧ e.status = some n) := by
  refine ⟨u16cast_lt, ?_, ?_⟩
  · intro t ev rid p hp
    rcases metadataStep_lookup config t ev rid p hp with hold | ⟨_, hrec⟩
    · exact Or.inl hold
    · exact Or.inr (by rw [hrec])
  · intro acts e he
    refine foldl_preserves_status_inv config acts ⟨[], []⟩ ?_ ?_ e he
    · intro rid p h
      cases h
    · intro e0 h
      cases h

/-- Witness for C10: a run with one captured metadata event (status 200)
and one completed fetch puts on the channel an event whose status is
`some 200`, which is below 65536. -/
theorem status_always_some_u16_witness :
    ∃ n, n < 65536 ∧
      (⟨"https://x", some "application/json", some 200, "ok"⟩ : Event).status = some n :=
  (status_always_some_u16 ⟨none, none⟩).2.2
    [NetAction.metadata ⟨"1", "https://x", 200, [("content-type", some "application/json")]⟩,
     NetAction.finished "1" (Except.ok ⟨"ok", false⟩)]
    ⟨"https://x", some "application/json", some 200, "ok"⟩ (by decide)

end NetStream
